import Mathlib

/-!
Verification of the WasbHook Azure Blob Storage connector
(`airflow/providers/microsoft/azure/hooks/wasb.py`).

The hook is a thin façade over the vendor SDK client (`BlockBlobService`).
We embed the SDK collaborator as an explicit blob-store state (a list of
blobs keyed by container and name) together with a trace of the calls the
hook issues (informational log records and `delete_blob` calls carrying the
`delete_snapshots` mode and the forwarded per-call options).  Transport
failures of individual `delete_blob` calls are modelled by a failure oracle
passed to `delete_file`.
-/

/-- A stored blob: container name, blob name, textual content, and the
identifiers of the snapshots the storage service keeps for it. -/
structure Blob where
  container : String
  name : String
  content : String
  snapshots : List String
deriving DecidableEq, Repr

/-- The storage state seen through one account: the list of stored blobs. -/
abbrev BlobStore := List Blob

/-- The per-call options mapping (`**kwargs`) forwarded verbatim to the SDK.
Only the fields that can affect the pure model are kept: `snapshot` is
consumed by the SDK `exists` primitive, `num_results` caps the SDK
`list_blobs` primitive. -/
structure Kwargs where
  snapshot : Option String
  num_results : Option Nat
deriving DecidableEq, Repr

/-- The empty options mapping: a call made with no keyword arguments. -/
def emptyKwargs : Kwargs := ⟨none, none⟩

/-- SDK primitive `BlockBlobService.exists(container_name, blob_name, **kwargs)`:
with no `snapshot` option, whether a blob with that container and name is
stored; with `snapshot=id`, whether such a blob exists and has snapshot `id`. -/
def sdkExists (s : BlobStore) (container_name blob_name : String) (kw : Kwargs) : Bool :=
  match kw.snapshot with
  | none => s.any fun x => x.container == container_name && x.name == blob_name
  | some snap =>
      s.any fun x => x.container == container_name && x.name == blob_name
        && x.snapshots.contains snap

/-- Whether the string `s` starts with `pre` (Python `str.startswith`,
compared character by character). -/
def strStartsWith (pre s : String) : Bool :=
  pre.data.isPrefixOf s.data

/-- SDK primitive `BlockBlobService.list_blobs(container_name, prefix, **kwargs)`:
the blobs of the container whose names start with the given string, capped at
`num_results` entries when that option is set. -/
def sdkListBlobs (s : BlobStore) (container_name pre : String) (kw : Kwargs) : List Blob :=
  let ms := s.filter fun x => x.container == container_name && strStartsWith pre x.name
  match kw.num_results with
  | none => ms
  | some n => ms.take n

/-- SDK primitive `BlockBlobService.create_blob_from_text(container_name,
blob_name, text, **kwargs)`: create or overwrite the blob with the given
textual content (a fresh blob has no snapshots). -/
def create_blob_from_text (s : BlobStore) (container_name blob_name text : String)
    (_kw : Kwargs) : BlobStore :=
  ⟨container_name, blob_name, text, []⟩ ::
    s.filter fun x => !(x.container == container_name && x.name == blob_name)

/-- SDK primitive `BlockBlobService.create_blob_from_path(container_name,
blob_name, file_path, **kwargs)`: stream the local file at `file_path` (read
through the file system `fs`) into the blob. -/
def create_blob_from_path (fs : String → String) (s : BlobStore)
    (container_name blob_name file_path : String) (kw : Kwargs) : BlobStore :=
  create_blob_from_text s container_name blob_name (fs file_path) kw

/-- SDK primitive `BlockBlobService.get_blob_to_text(container_name, blob_name,
**kwargs)`: the stored blob object, if present (its `.content` is read by the
hook). -/
def get_blob_to_text (s : BlobStore) (container_name blob_name : String)
    (_kw : Kwargs) : Option Blob :=
  s.find? fun x => x.container == container_name && x.name == blob_name

/-- SDK primitive `BlockBlobService.delete_blob(container_name, blob_name,
delete_snapshots=..., **kwargs)`: remove the blob entry (with its snapshots)
from the store.  The `delete_snapshots` mode passed by the hook is recorded in
the call trace, not here. -/
def sdkDeleteBlob (s : BlobStore) (container_name blob_name : String) : BlobStore :=
  s.filter fun x => !(x.container == container_name && x.name == blob_name)

/-- Source `WasbHook.check_for_blob`: delegates to `connection.exists` with the
caller's keyword arguments. -/
def check_for_blob (s : BlobStore) (container_name blob_name : String) (kw : Kwargs) : Bool :=
  sdkExists s container_name blob_name kw

/-- Source `WasbHook.check_for_prefix`: lists at most one blob under the
given name beginning (`num_results=1`) and reports whether the result is
non-empty. -/
def check_for_prefix (s : BlobStore) (container_name pre : String) (kw : Kwargs) : Bool :=
  !(sdkListBlobs s container_name pre { kw with num_results := some 1 }).isEmpty

/-- Source `WasbHook.get_blobs_list`: delegates to `connection.list_blobs`. -/
def get_blobs_list (s : BlobStore) (container_name pre : String) (kw : Kwargs) : List Blob :=
  sdkListBlobs s container_name pre kw

/-- Source `WasbHook.load_file`: uploads the local file, reordering the
arguments for `create_blob_from_path`. -/
def load_file (fs : String → String) (s : BlobStore)
    (file_path container_name blob_name : String) (kw : Kwargs) : BlobStore :=
  create_blob_from_path fs s container_name blob_name file_path kw

/-- Source `WasbHook.load_string`: uploads the string, reordering the
arguments for `create_blob_from_text`. -/
def load_string (s : BlobStore) (string_data container_name blob_name : String)
    (kw : Kwargs) : BlobStore :=
  create_blob_from_text s container_name blob_name string_data kw

/-- Source `WasbHook.read_file`: `get_blob_to_text(...).content`; `none` when
the SDK call fails because the blob is absent. -/
def read_file (s : BlobStore) (container_name blob_name : String) (kw : Kwargs) :
    Option String :=
  (get_blob_to_text s container_name blob_name kw).map Blob.content

/-- An error surfaced by `delete_file`: either the `AirflowException` the hook
itself raises, or a transport failure of an individual SDK `delete_blob` call
(carrying the blob name whose deletion failed). -/
inductive DeleteError where
  | airflowException (msg : String)
  | transport (blob_name : String)
deriving DecidableEq, Repr

/-- An observable call issued by `delete_file`: the informational log record
naming a blob, or an SDK `delete_blob` call with its `delete_snapshots` mode
and the forwarded keyword arguments. -/
inductive Event where
  | logInfo (blob_name : String)
  | deleteCall (container_name blob_name delete_snapshots : String) (kw : Kwargs)
deriving DecidableEq, Repr

/-- The result of a `delete_file` run: the trace of calls issued, the final
storage state, and the error that terminated the run, if any. -/
structure DeleteOutcome where
  trace : List Event
  store : BlobStore
  error : Option DeleteError
deriving DecidableEq, Repr

/-- The deletion set computed by the first `if`/`elif`/`else` of
`WasbHook.delete_file`: all names matching the prefix (keyword arguments
forwarded to `list_blobs`) when ` is_prefix` is set, else the single name when
`check_for_blob` (called without keyword arguments) reports it present, else
empty. -/
def blobs_to_delete (s : BlobStore) (container_name blob_name : String)
    ( is_prefix : Bool) (kw : Kwargs) : List String :=
  if is_prefix then
    (sdkListBlobs s container_name blob_name kw).map Blob.name
  else if check_for_blob s container_name blob_name emptyKwargs then
    [blob_name]
  else
    []

/-- The `for blob_uri in blobs_to_delete` loop of `WasbHook.delete_file`: for
each name in order, emit the informational log record, then issue the SDK
`delete_blob` call with `delete_snapshots='include'` and the forwarded keyword
arguments.  The oracle `fails` tells which `delete_blob` calls fail with a
transport error; a failing call leaves the store unchanged and its error
propagates at once, abandoning the rest of the list. -/
def deleteLoop (fails : String → Bool) (container_name : String) (kw : Kwargs) :
    BlobStore → List String → List Event → DeleteOutcome
  | s, [], tr => ⟨tr, s, none⟩
  | s, b :: rest, tr =>
    if fails b then
      ⟨tr ++ [.logInfo b, .deleteCall container_name b "include" kw], s,
        some (.transport b)⟩
    else
      deleteLoop fails container_name kw (sdkDeleteBlob s container_name b) rest
        (tr ++ [.logInfo b, .deleteCall container_name b "include" kw])

/-- Source `WasbHook.delete_file`: compute the deletion set, raise
`AirflowException(f'Blob(s) not found: {blob_name}')` when it is empty and
` ignore_if_missing` is not set, otherwise delete the set sequentially. -/
def delete_file (fails : String → Bool) (s : BlobStore)
    (container_name blob_name : String) ( is_prefix ignore_if_missing : Bool)
    (kw : Kwargs) : DeleteOutcome :=
  let bs := blobs_to_delete s container_name blob_name is_prefix kw
  if !ignore_if_missing && bs.length == 0 then
    ⟨[], s, some (.airflowException ("Blob(s) not found: " ++ blob_name))⟩
  else
    deleteLoop fails container_name kw s bs []

/-- The failure oracle of a run in which every SDK `delete_blob` call
succeeds. -/
def noFail : String → Bool := fun _ => false

/-- The log record followed by the `delete_blob` call that the deletion loop
issues for each name it processes, concatenated in list order. -/
def deleteTrace (container_name : String) (kw : Kwargs) (names : List String) : List Event :=
  names.flatMap fun b => [.logInfo b, .deleteCall container_name b "include" kw]

/-- The names the deletion loop attempts under the oracle `fails`: every name
up to and including the first failing one. -/
def attemptedNames (fails : String → Bool) : List String → List String
  | [] => []
  | b :: rest => if fails b then [b] else b :: attemptedNames fails rest

/-- The names the deletion loop successfully deletes under the oracle `fails`:
every name strictly before the first failing one. -/
def deletedNames (fails : String → Bool) : List String → List String
  | [] => []
  | b :: rest => if fails b then [] else b :: deletedNames fails rest

/-- Sequentially remove the named blobs of the container from the store. -/
def foldDelete (container_name : String) (s : BlobStore) (names : List String) : BlobStore :=
  names.foldl (fun st b => sdkDeleteBlob st container_name b) s

/-- A storage operation of a hook-usage history: an upload via `load_string`,
an upload via `load_file`, or a `delete_file` call.  Histories run with no
transport failures and no per-call options. -/
inductive Op where
  | loadString (string_data container_name blob_name : String)
  | loadFile (file_path container_name blob_name : String)
  | deleteFile (container_name blob_name : String) ( is_prefix ignore_if_missing : Bool)
deriving DecidableEq, Repr

/-- Apply one history operation to the store (`fs` is the local file system
read by `load_file`). -/
def applyOp (fs : String → String) (s : BlobStore) : Op → BlobStore
  | .loadString d c b => load_string s d c b emptyKwargs
  | .loadFile p c b => load_file fs s p c b emptyKwargs
  | .deleteFile c b ip ig => (delete_file noFail s c b ip ig emptyKwargs).store

/-- Run a history of operations from the empty store. -/
def runOps (fs : String → String) (h : List Op) : BlobStore :=
  h.foldl (applyOp fs) []

/-- Whether a history operation is a successful upload to the exact reference
`(container_name, blob_name)`. -/
def isUploadTo (container_name blob_name : String) : Op → Bool
  | .loadString _ c b => c == container_name && b == blob_name
  | .loadFile _ c b => c == container_name && b == blob_name
  | .deleteFile _ _ _ _ => false

/-- Whether a history operation is a deletion of the reference
`(container_name, blob_name)`: a `delete_file` on that container whose target
is the exact name, or a prefix of it when ` is_prefix` is set. -/
def covers (container_name blob_name : String) : Op → Bool
  | .loadString _ _ _ => false
  | .loadFile _ _ _ => false
  | .deleteFile c b ip _ =>
      c == container_name && (if ip then strStartsWith b blob_name else b == blob_name)

/-- A resolved connection profile, as returned by the connection registry:
login (account name), password (account key), and the deserialized `extra`
options mapping. -/
structure Connection where
  login : String
  password : String
  extra_dejson : List (String × String)
deriving DecidableEq, Repr

/-- The SDK client handle: a `BlockBlobService` constructed from an account
name, an account key, and the pass-through service options. -/
structure BlockBlobService where
  account_name : String
  account_key : String
  service_options : List (String × String)
deriving DecidableEq, Repr

/-- A connection registry: what profile, if any, each connection identifier
resolves to. -/
abbrev Registry := String → Option Connection

/-- The error surfaced when construction of the hook fails. -/
inductive HookError where
  | connectionResolution (conn_id : String)
deriving DecidableEq, Repr

/-- Modelled from the spec: `BaseHook.get_connection` (the connection-registry
collaborator, not part of the source fragment) returns the profile stored
under the identifier and fails with a resolution error when the identifier is
unknown. -/
def get_connection (registry : Registry) (conn_id : String) : Except HookError Connection :=
  match registry conn_id with
  | some conn => .ok conn
  | none => .error (.connectionResolution conn_id)

/-- Source `WasbHook.get_conn`: resolve the connection and build the
`BlockBlobService` from its login, password and extra options. -/
def get_conn (registry : Registry) (conn_id : String) : Except HookError BlockBlobService :=
  (get_connection registry conn_id).map fun conn =>
    ⟨conn.login, conn.password, conn.extra_dejson⟩

/-- The hook instance: the connection identifier and the single client handle
established at construction. -/
structure WasbHook where
  conn_id : String
  connection : BlockBlobService
deriving DecidableEq, Repr

/-- Source `WasbHook.__init__`: store the identifier and establish the client
handle by calling `get_conn` once; construction fails when resolution fails. -/
def WasbHook.init (registry : Registry) (wasb_conn_id : String) : Except HookError WasbHook :=
  (get_conn registry wasb_conn_id).map fun svc => ⟨wasb_conn_id, svc⟩

/-- The global storage state: the blob store of each storage account. -/
abbrev Cloud := String → BlobStore

/-- Hook-level `check_for_blob`: reads the store of the account the stored
handle points at. -/
def WasbHook.hookCheckForBlob (self : WasbHook) (cloud : Cloud)
    (container_name blob_name : String) (kw : Kwargs) : Bool :=
  check_for_blob (cloud self.connection.account_name) container_name blob_name kw

/-- Hook-level `get_blobs_list`: reads the store of the account the stored
handle points at. -/
def WasbHook.hookGetBlobsList (self : WasbHook) (cloud : Cloud)
    (container_name pre : String) (kw : Kwargs) : List Blob :=
  get_blobs_list (cloud self.connection.account_name) container_name pre kw

/-- Hook-level `load_string`: updates the store of the account the stored
handle points at. -/
def WasbHook.hookLoadString (self : WasbHook) (cloud : Cloud)
    (string_data container_name blob_name : String) (kw : Kwargs) : BlobStore :=
  load_string (cloud self.connection.account_name) string_data container_name blob_name kw

/-- Hook-level `read_file`: reads the store of the account the stored handle
points at. -/
def WasbHook.hookReadFile (self : WasbHook) (cloud : Cloud)
    (container_name blob_name : String) (kw : Kwargs) : Option String :=
  read_file (cloud self.connection.account_name) container_name blob_name kw

/-- Hook-level `delete_file`: runs against the store of the account the stored
handle points at. -/
def WasbHook.hookDeleteFile (self : WasbHook) (cloud : Cloud) (fails : String → Bool)
    (container_name blob_name : String) ( is_prefix ignore_if_missing : Bool)
    (kw : Kwargs) : DeleteOutcome :=
  delete_file fails (cloud self.connection.account_name) container_name blob_name
    is_prefix ignore_if_missing kw

/-- Whether an event is compatible with the delete-snapshots contract: every
`delete_blob` call carries the mode `"include"`. -/
def deleteUsesInclude : Event → Bool
  | .logInfo _ => true
  | .deleteCall _ _ mode _ => mode == "include"

/-- Whether an event forwards exactly the given keyword arguments (log records
carry none). -/
def eventKwIs (kw : Kwargs) : Event → Bool
  | .logInfo _ => true
  | .deleteCall _ _ _ kw2 => kw2 == kw

/-- Whether the reference `(container_name, blob_name)` is live after the
history: scanning left to right, an upload to it revives it, a covering
deletion kills it. -/
def aliveAfter (container_name blob_name : String) (h : List Op) : Bool :=
  h.foldl
    (fun acc op =>
      if isUploadTo container_name blob_name op then true
      else if covers container_name blob_name op then false
      else acc)
    false

theorem deleteTrace_nil (c : String) (kw : Kwargs) : deleteTrace c kw [] = [] := rfl

theorem deleteTrace_cons (c : String) (kw : Kwargs) (b : String) (L : List String) :
    deleteTrace c kw (b :: L) =
      Event.logInfo b :: Event.deleteCall c b "include" kw :: deleteTrace c kw L := by
  simp [deleteTrace]

/-- The deletion loop, in closed form: it extends the trace by one log record
and one `delete_blob` call per attempted name, removes the successfully
deleted names from the store, and reports the first transport failure. -/
theorem deleteLoop_eq (fails : String → Bool) (c : String) (kw : Kwargs)
    (L : List String) : ∀ (s : BlobStore) (tr : List Event),
    deleteLoop fails c kw s L tr =
      ⟨tr ++ deleteTrace c kw (attemptedNames fails L),
       foldDelete c s (deletedNames fails L),
       (L.find? fails).map DeleteError.transport⟩ := by
  induction L with
  | nil =>
    intro s tr
    simp [deleteLoop, deleteTrace, attemptedNames, deletedNames, foldDelete]
  | cons b rest ih =>
    intro s tr
    by_cases hb : fails b
    · simp [deleteLoop, hb, attemptedNames, deletedNames, foldDelete, deleteTrace]
    · have hstep : deleteLoop fails c kw s (b :: rest) tr =
          deleteLoop fails c kw (sdkDeleteBlob s c b) rest
            (tr ++ [.logInfo b, .deleteCall c b "include" kw]) := by
        simp [deleteLoop, hb]
      rw [hstep, ih]
      simp [attemptedNames, deletedNames, hb, deleteTrace_cons, foldDelete]

/-- The whole of `delete_file`, in closed form. -/
theorem delete_file_eq (fails : String → Bool) (s : BlobStore) (c b : String)
    (ip ig : Bool) (kw : Kwargs) :
    delete_file fails s c b ip ig kw =
      if !ig && (blobs_to_delete s c b ip kw).length == 0 then
        ⟨[], s, some (.airflowException ("Blob(s) not found: " ++ b))⟩
      else
        ⟨deleteTrace c kw (attemptedNames fails (blobs_to_delete s c b ip kw)),
         foldDelete c s (deletedNames fails (blobs_to_delete s c b ip kw)),
         ((blobs_to_delete s c b ip kw).find? fails).map DeleteError.transport⟩ := by
  by_cases h : (!ig && (blobs_to_delete s c b ip kw).length == 0) = true
  · simp [delete_file, h]
  · simp only [delete_file, h, if_false, Bool.not_eq_true] at *
    rw [deleteLoop_eq]
    simp [h]

/-- C1: with an empty deletion set, `delete_file` fails with the
`AirflowException` naming the blob when ` ignore_if_missing` is false, and is
a pure no-op (empty trace, unchanged store, no error) when it is true. -/
theorem delete_file_missing_target (fails : String → Bool) (s : BlobStore)
    (container_name blob_name : String) (ip : Bool) (kw : Kwargs)
    (h : blobs_to_delete s container_name blob_name ip kw = []) :
    delete_file fails s container_name blob_name ip false kw =
      ⟨[], s, some (.airflowException ("Blob(s) not found: " ++ blob_name))⟩
    ∧ delete_file fails s container_name blob_name ip true kw = ⟨[], s, none⟩ := by
  constructor
  · simp [delete_file, h]
  · simp [delete_file, h, deleteLoop]

/-- Witness for C1 at a concrete input: no blob named `missing.txt` is stored. -/
theorem delete_file_missing_target_witness :
    blobs_to_delete [] "c" "missing.txt" false emptyKwargs = []
    ∧ (delete_file noFail [] "c" "missing.txt" false false emptyKwargs =
        ⟨[], [], some (.airflowException ("Blob(s) not found: " ++ "missing.txt"))⟩
      ∧ delete_file noFail [] "c" "missing.txt" false true emptyKwargs = ⟨[], [], none⟩) :=
  ⟨rfl, delete_file_missing_target noFail [] "c" "missing.txt" false emptyKwargs rfl⟩

/-- C3: uploading a string to a reference and reading that reference back
returns exactly the uploaded string, for any string including the empty one
and any per-call options on either call. -/
theorem load_string_read_file_roundtrip (s : BlobStore)
    (string_data container_name blob_name : String) (kwu kwr : Kwargs) :
    read_file (load_string s string_data container_name blob_name kwu)
      container_name blob_name kwr = some string_data := by
  simp [read_file, load_string, create_blob_from_text, get_blob_to_text]

/-- C4: ` check_for_prefix` is true exactly when `get_blobs_list` on the same
container and name beginning returns a non-empty sequence, for any per-call
options on the existence check and any listing cap of at least one. -/
theorem check_for_prefix_iff_get_blobs_list (s : BlobStore)
    (container_name pre : String) (kw kwl : Kwargs)
    (hcap : ∀ n, kwl.num_results = some n → 1 ≤ n) :
    ( check_for_prefix s container_name pre kw = true ↔
      get_blobs_list s container_name pre kwl ≠ []) := by
  unfold check_for_prefix get_blobs_list sdkListBlobs
  cases hn : kwl.num_results with
  | none => simp [List.take_eq_nil_iff]
  | some n =>
    have h1 : 1 ≤ n := hcap n hn
    have hn0 : n ≠ 0 := by omega
    simp [List.take_eq_nil_iff, hn0]

/-- Witness for C4 at a concrete input: one stored blob under the prefix. -/
theorem check_for_prefix_iff_get_blobs_list_witness :
    (∀ n, emptyKwargs.num_results = some n → 1 ≤ n)
    ∧ ( check_for_prefix [Blob.mk "c" "a/1.txt" "x" []] "c" "a/" emptyKwargs = true ↔
        get_blobs_list [Blob.mk "c" "a/1.txt" "x" []] "c" "a/" emptyKwargs ≠ []) :=
  ⟨fun n h => by simp [emptyKwargs] at h,
   check_for_prefix_iff_get_blobs_list [Blob.mk "c" "a/1.txt" "x" []] "c" "a/"
     emptyKwargs emptyKwargs (fun n h => by simp [emptyKwargs] at h)⟩

theorem deleteTrace_all_include (c : String) (kw : Kwargs) (L : List String) :
    (deleteTrace c kw L).all deleteUsesInclude = true := by
  induction L with
  | nil => rfl
  | cons b rest ih => simp [deleteTrace_cons, deleteUsesInclude, ih]

/-- C7: every `delete_blob` call issued by `delete_file` carries the
delete-snapshots mode `"include"`, whatever the parameters — the mode is not
configurable. -/
theorem delete_file_snapshots_include (fails : String → Bool) (s : BlobStore)
    (container_name blob_name : String) (ip ig : Bool) (kw : Kwargs) :
    ((delete_file fails s container_name blob_name ip ig kw).trace.all
      deleteUsesInclude) = true := by
  rw [delete_file_eq]
  by_cases h : (!ig && (blobs_to_delete s container_name blob_name ip kw).length == 0) = true
  · simp [h]
  · simp only [h, if_false]
    exact deleteTrace_all_include _ _ _

theorem attemptedNames_noFail (L : List String) : attemptedNames noFail L = L := by
  induction L with
  | nil => rfl
  | cons b rest ih => simp [attemptedNames, noFail, ih]

/-- C8: the trace of `delete_file` is, for each attempted name in deletion-set
order, the informational log record naming it immediately followed by its
`delete_blob` call; with no transport failures the attempted names are the
whole deletion set, so every blob of the set gets exactly one log record and
no deletion is issued without its preceding log record. -/
theorem delete_file_log_before_delete (fails : String → Bool) (s : BlobStore)
    (container_name blob_name : String) (ip ig : Bool) (kw : Kwargs) :
    (delete_file fails s container_name blob_name ip ig kw).trace =
      deleteTrace container_name kw
        (attemptedNames fails (blobs_to_delete s container_name blob_name ip kw))
    ∧ attemptedNames noFail (blobs_to_delete s container_name blob_name ip kw) =
        blobs_to_delete s container_name blob_name ip kw := by
  refine ⟨?_, attemptedNames_noFail _⟩
  rw [delete_file_eq]
  by_cases h : (!ig && (blobs_to_delete s container_name blob_name ip kw).length == 0) = true
  · have h' := h
    simp only [Bool.and_eq_true, Bool.not_eq_true', beq_iff_eq] at h'
    have hnil : blobs_to_delete s container_name blob_name ip kw = [] :=
      List.length_eq_zero.mp h'.2
    rw [if_pos h]
    simp [hnil, attemptedNames, deleteTrace]
  · simp [h]

/-- When the first failing name of the list sits at index `n`, the loop
attempts exactly the first `n+1` names, deletes exactly the first `n`, and the
first failure is the name at index `n`. -/
theorem firstFail_spec (fails : String → Bool) (L : List String) :
    ∀ (n : Nat), n < L.length →
      ((L.take n).all fun u => !fails u) = true →
      fails (L.getD n "") = true →
      attemptedNames fails L = L.take (n + 1)
      ∧ deletedNames fails L = L.take n
      ∧ L.find? fails = some (L.getD n "") := by
  induction L with
  | nil => intro n hn _ _; simp at hn
  | cons b rest ih =>
    intro n hn hpre hf
    cases n with
    | zero =>
      have hb : fails b = true := by simpa using hf
      exact ⟨by simp [attemptedNames, hb], by simp [deletedNames, hb],
        by rw [List.find?_cons_of_pos _ hb]; simp⟩
    | succ m =>
      rw [List.take_succ_cons, List.all_cons, Bool.and_eq_true] at hpre
      have hb : fails b = false := by simpa using hpre.1
      rw [List.getD_cons_succ] at hf
      obtain ⟨h1, h2, h3⟩ :=
        ih m (Nat.lt_of_succ_lt_succ (by simpa using hn)) hpre.2 hf
      refine ⟨?_, ?_, ?_⟩
      · simp [attemptedNames, hb, h1]
      · simp [deletedNames, hb, h2]
      · rw [List.find?_cons_of_neg _ (by simp [hb]), h3, List.getD_cons_succ]

/-- C6: deletions are issued sequentially in deletion-set order; when the
deletion of the entry at index `n` fails, the run's trace covers exactly the
first `n+1` entries (each logged then deleted, nothing afterwards attempted),
the store has exactly the first `n` entries removed, and the failing
deletion's transport error propagates as the outcome's only error. -/
theorem delete_file_partial_failure (fails : String → Bool) (s : BlobStore)
    (container_name blob_name : String) (ip ig : Bool) (kw : Kwargs) (n : Nat)
    (hn : n < (blobs_to_delete s container_name blob_name ip kw).length)
    (hpre : (((blobs_to_delete s container_name blob_name ip kw).take n).all
      fun u => !fails u) = true)
    (hf : fails ((blobs_to_delete s container_name blob_name ip kw).getD n "") = true) :
    delete_file fails s container_name blob_name ip ig kw =
      ⟨deleteTrace container_name kw
         ((blobs_to_delete s container_name blob_name ip kw).take (n + 1)),
       foldDelete container_name s
         ((blobs_to_delete s container_name blob_name ip kw).take n),
       some (.transport
         ((blobs_to_delete s container_name blob_name ip kw).getD n ""))⟩ := by
  obtain ⟨h1, h2, h3⟩ := firstFail_spec fails _ n hn hpre hf
  rw [delete_file_eq]
  have hne : (blobs_to_delete s container_name blob_name ip kw).length ≠ 0 := by omega
  rw [if_neg (by simp [hne])]
  rw [h1, h2, h3]
  rfl

/-- Witness for C6 at a concrete input: deletion set `["a", "b"]`, the
deletion of `"b"` (index 1) fails. -/
theorem delete_file_partial_failure_witness :
    1 < (blobs_to_delete [Blob.mk "c" "a" "x" [], Blob.mk "c" "b" "y" []]
          "c" "" true emptyKwargs).length
    ∧ (((blobs_to_delete [Blob.mk "c" "a" "x" [], Blob.mk "c" "b" "y" []]
          "c" "" true emptyKwargs).take 1).all fun u => !(u == "b")) = true
    ∧ ((fun u => u == "b")
        ((blobs_to_delete [Blob.mk "c" "a" "x" [], Blob.mk "c" "b" "y" []]
          "c" "" true emptyKwargs).getD 1 "")) = true
    ∧ delete_file (fun u => u == "b") [Blob.mk "c" "a" "x" [], Blob.mk "c" "b" "y" []]
        "c" "" true false emptyKwargs =
      ⟨deleteTrace "c" emptyKwargs
         ((blobs_to_delete [Blob.mk "c" "a" "x" [], Blob.mk "c" "b" "y" []]
            "c" "" true emptyKwargs).take 2),
       foldDelete "c" [Blob.mk "c" "a" "x" [], Blob.mk "c" "b" "y" []]
         ((blobs_to_delete [Blob.mk "c" "a" "x" [], Blob.mk "c" "b" "y" []]
            "c" "" true emptyKwargs).take 1),
       some (.transport
         ((blobs_to_delete [Blob.mk "c" "a" "x" [], Blob.mk "c" "b" "y" []]
            "c" "" true emptyKwargs).getD 1 ""))⟩ :=
  ⟨by decide, by decide, by decide,
   delete_file_partial_failure (fun u => u == "b")
     [Blob.mk "c" "a" "x" [], Blob.mk "c" "b" "y" []] "c" "" true false emptyKwargs 1
     (by decide) (by decide) (by decide)⟩

theorem deletedNames_noFail (L : List String) : deletedNames noFail L = L := by
  induction L with
  | nil => rfl
  | cons b rest ih => simp [deletedNames, noFail, ih]

/-- Sequentially deleting a list of names removes from the store exactly the
entries of that container whose name occurs in the list. -/
theorem foldDelete_filter (c : String) :
    ∀ (L : List String) (s : BlobStore),
      foldDelete c s L =
        s.filter fun x => !(x.container == c && decide (x.name ∈ L)) := by
  intro L
  induction L with
  | nil =>
    intro s
    have hp : (fun x : Blob => !(x.container == c && decide (x.name ∈ ([] : List String))))
        = fun _ => true := by
      funext x; simp
    have h0 : foldDelete c s [] = s := rfl
    rw [h0, hp, List.filter_true]
  | cons b rest ih =>
    intro s
    have hstep : foldDelete c s (b :: rest) = foldDelete c (sdkDeleteBlob s c b) rest := rfl
    rw [hstep, ih, sdkDeleteBlob, List.filter_filter]
    refine List.filter_congr fun x _ => ?_
    by_cases h1 : x.container = c <;> by_cases h2 : x.name = b <;>
      by_cases h3 : x.name ∈ rest <;> simp [h1, h2, h3]

/-- When no stored blob of the container matches the prefix,
` check_for_prefix` returns false. -/
theorem check_for_prefix_eq_false_of (s : BlobStore) (c pre : String) (kw : Kwargs)
    (h : s.filter (fun x => x.container == c && strStartsWith pre x.name) = []) :
    check_for_prefix s c pre kw = false := by
  unfold check_for_prefix sdkListBlobs
  simp [h]

/-- C2: `delete_file` in prefix mode (no transport failures, no extra options)
leaves exactly the blobs whose container differs or whose name does not start
with the prefix — it deletes every match and nothing else — and a subsequent
` check_for_prefix` on the same container and prefix returns false. -/
theorem delete_file_prefix_exact (s : BlobStore) (container_name pre : String)
    (ig : Bool) :
    (delete_file noFail s container_name pre true ig emptyKwargs).store
      = s.filter (fun x => !(x.container == container_name && strStartsWith pre x.name))
    ∧ check_for_prefix
        (delete_file noFail s container_name pre true ig emptyKwargs).store
        container_name pre emptyKwargs = false := by
  have hL : blobs_to_delete s container_name pre true emptyKwargs =
      (s.filter fun x => x.container == container_name && strStartsWith pre x.name).map
        Blob.name := rfl
  have hstore : (delete_file noFail s container_name pre true ig emptyKwargs).store
      = s.filter fun x => !(x.container == container_name && strStartsWith pre x.name) := by
    rw [delete_file_eq]
    by_cases h : (!ig && (blobs_to_delete s container_name pre true emptyKwargs).length
        == 0) = true
    · rw [if_pos h]
      have h' := h
      simp only [Bool.and_eq_true, Bool.not_eq_true', beq_iff_eq] at h'
      have hnil : blobs_to_delete s container_name pre true emptyKwargs = [] :=
        List.length_eq_zero.mp h'.2
      rw [hL] at hnil
      have hfnil := List.map_eq_nil_iff.mp hnil
      have hmem := List.filter_eq_nil_iff.mp hfnil
      refine (List.filter_eq_self.mpr fun x hx => ?_).symm
      have hx' := hmem x hx
      by_cases hc : x.container = container_name <;>
        by_cases hm : strStartsWith pre x.name <;> simp_all
    · rw [if_neg h]
      show foldDelete container_name s
        (deletedNames noFail (blobs_to_delete s container_name pre true emptyKwargs)) = _
      rw [deletedNames_noFail, foldDelete_filter]
      refine List.filter_congr fun x hx => ?_
      by_cases hc : x.container = container_name
      · by_cases hm : strStartsWith pre x.name = true
        · have : x.name ∈ blobs_to_delete s container_name pre true emptyKwargs := by
            rw [hL]
            exact List.mem_map.mpr ⟨x, List.mem_filter.mpr ⟨hx, by simp [hc, hm]⟩, rfl⟩
          simp [hc, hm, this]
        · have : x.name ∉ blobs_to_delete s container_name pre true emptyKwargs := by
            rw [hL]
            intro hmem
            rcases List.mem_map.mp hmem with ⟨y, hy, hyx⟩
            rcases List.mem_filter.mp hy with ⟨-, hym⟩
            rcases Bool.and_eq_true .. |>.mp hym with ⟨-, hys⟩
            rw [hyx] at hys
            exact hm hys
          simp [hc, hm, this]
      · have hcf : (x.container == container_name) = false := by simp [hc]
        simp [hcf]
  refine ⟨hstore, ?_⟩
  rw [hstore]
  have hnone : (s.filter fun x =>
      !(x.container == container_name && strStartsWith pre x.name)).filter
        (fun x => x.container == container_name && strStartsWith pre x.name) = [] := by
    rw [List.filter_filter]
    refine List.filter_eq_nil_iff.mpr fun x _ => ?_
    by_cases hc : x.container = container_name <;> by_cases hm : strStartsWith pre x.name <;>
      simp [hc, hm]
  exact check_for_prefix_eq_false_of _ _ _ _ hnone

theorem deleteTrace_all_kw (c : String) (kw : Kwargs) (L : List String) :
    (deleteTrace c kw L).all (eventKwIs kw) = true := by
  induction L with
  | nil => rfl
  | cons b rest ih => simp [deleteTrace_cons, eventKwIs, ih]

/-- C10: in non-prefix mode the deletion set — hence the existence decision —
is computed by `check_for_blob` with no options, for every per-call options
mapping, while every `delete_blob` call of the run forwards the caller's
options; and the options can genuinely change what `check_for_blob` returns,
so the omission is observable. -/
theorem delete_file_existence_check_ignores_kwargs :
    (∀ (fails : String → Bool) (s : BlobStore) (container_name blob_name : String)
        (ig : Bool) (kw : Kwargs),
      blobs_to_delete s container_name blob_name false kw
        = (if check_for_blob s container_name blob_name emptyKwargs then [blob_name]
           else [])
      ∧ ((delete_file fails s container_name blob_name false ig kw).trace.all
          (eventKwIs kw)) = true)
    ∧ ∃ (s : BlobStore) (container_name blob_name : String) (kw : Kwargs),
        check_for_blob s container_name blob_name kw
          ≠ check_for_blob s container_name blob_name emptyKwargs := by
  constructor
  · intro fails s c b ig kw
    refine ⟨rfl, ?_⟩
    rw [delete_file_eq]
    by_cases h : (!ig && (blobs_to_delete s c b false kw).length == 0) = true
    · simp [h]
    · simp only [h, if_false]
      exact deleteTrace_all_kw _ _ _
  · exact ⟨[⟨"c", "x", "d", []⟩], "c", "x", ⟨some "snap", none⟩, by decide⟩

/-- C9: a hook instance holds exactly one client handle: successful
construction stores the handle built from the resolved profile (and nothing
else can have been stored); construction fails fast when resolution fails; and
every operation of the façade is a function of that stored handle alone — two
hooks with the same handle behave identically on every operation. -/
theorem wasb_hook_single_handle :
    (∀ (registry : Registry) (conn_id : String) (h : WasbHook),
        WasbHook.init registry conn_id = .ok h →
          ∃ conn, registry conn_id = some conn
            ∧ h = ⟨conn_id, ⟨conn.login, conn.password, conn.extra_dejson⟩⟩)
    ∧ (∀ (registry : Registry) (conn_id : String), registry conn_id = none →
        WasbHook.init registry conn_id = .error (.connectionResolution conn_id))
    ∧ (∀ (h h' : WasbHook), h.connection = h'.connection →
        ∀ (cloud : Cloud) (fails : String → Bool) (c b pre d : String)
          (ip ig : Bool) (kw : Kwargs),
          h.hookCheckForBlob cloud c b kw = h'.hookCheckForBlob cloud c b kw
          ∧ h.hookGetBlobsList cloud c pre kw = h'.hookGetBlobsList cloud c pre kw
          ∧ h.hookLoadString cloud d c b kw = h'.hookLoadString cloud d c b kw
          ∧ h.hookReadFile cloud c b kw = h'.hookReadFile cloud c b kw
          ∧ h.hookDeleteFile cloud fails c b ip ig kw
              = h'.hookDeleteFile cloud fails c b ip ig kw) := by
  refine ⟨?_, ?_, ?_⟩
  · intro registry conn_id h hinit
    unfold WasbHook.init get_conn get_connection at hinit
    cases hr : registry conn_id with
    | none => rw [hr] at hinit; simp [Except.map] at hinit
    | some conn =>
      rw [hr] at hinit
      simp [Except.map] at hinit
      exact ⟨conn, rfl, hinit.symm⟩
  · intro registry conn_id hr
    unfold WasbHook.init get_conn get_connection
    rw [hr]
    rfl
  · intro h h' hc cloud fails c b pre d ip ig kw
    unfold WasbHook.hookCheckForBlob WasbHook.hookGetBlobsList WasbHook.hookLoadString
      WasbHook.hookReadFile WasbHook.hookDeleteFile
    rw [hc]
    exact ⟨rfl, rfl, rfl, rfl, rfl⟩

theorem check_for_blob_empty (s : BlobStore) (c b : String) :
    check_for_blob s c b emptyKwargs
      = s.any fun x => x.container == c && x.name == b := rfl

theorem blobs_to_delete_prefix_mode (s : BlobStore) (c p : String) :
    blobs_to_delete s c p true emptyKwargs
      = (s.filter fun x => x.container == c && strStartsWith p x.name).map Blob.name := rfl

theorem blobs_to_delete_single_mode (s : BlobStore) (c b : String) (kw : Kwargs) :
    blobs_to_delete s c b false kw
      = if check_for_blob s c b emptyKwargs then [b] else [] := rfl

/-- After a transport-failure-free `delete_file` with no options, the store
keeps exactly the entries whose container differs or whose name is not in the
deletion set. -/
theorem delete_file_store_noFail (s : BlobStore) (c b : String) (ip ig : Bool) :
    (delete_file noFail s c b ip ig emptyKwargs).store
      = s.filter fun x =>
          !(x.container == c && decide (x.name ∈ blobs_to_delete s c b ip emptyKwargs)) := by
  rw [delete_file_eq]
  by_cases h : (!ig && (blobs_to_delete s c b ip emptyKwargs).length == 0) = true
  · rw [if_pos h]
    have h' := h
    simp only [Bool.and_eq_true, Bool.not_eq_true', beq_iff_eq] at h'
    have hnil := List.length_eq_zero.mp h'.2
    rw [hnil]
    have hp : (fun x : Blob => !(x.container == c && decide (x.name ∈ ([] : List String))))
        = fun _ => true := by
      funext x; simp
    show s = _
    rw [hp, List.filter_true]
  · rw [if_neg h]
    show foldDelete c s (deletedNames noFail _) = _
    rw [deletedNames_noFail, foldDelete_filter]

/-- Uploading a string to a reference makes `check_for_blob` on that
reference true. -/
theorem check_after_load_string_same (s : BlobStore) (d c b : String) (kw : Kwargs) :
    check_for_blob (load_string s d c b kw) c b emptyKwargs = true := by
  simp [check_for_blob_empty, load_string, create_blob_from_text]

/-- Uploading a string to a different reference leaves `check_for_blob` on the
reference unchanged. -/
theorem check_after_load_string_other (s : BlobStore) (d c' b' c b : String) (kw : Kwargs)
    (hne : ¬(c' = c ∧ b' = b)) :
    check_for_blob (load_string s d c' b' kw) c b emptyKwargs
      = check_for_blob s c b emptyKwargs := by
  rw [check_for_blob_empty, check_for_blob_empty, load_string, create_blob_from_text]
  have hhead : (c' == c && b' == b) = false := by
    by_cases hc : c' = c <;> by_cases hb : b' = b <;> simp_all
  rw [List.any_cons, hhead, Bool.false_or, List.any_filter]
  congr 1
  funext a
  by_cases hc : a.container = c <;> by_cases hb : a.name = b <;>
    by_cases hc' : a.container = c' <;> by_cases hb' : a.name = b' <;> simp_all

/-- A `delete_file` whose target covers the reference (same container, exact
name or matching prefix) leaves `check_for_blob` on the reference false. -/
theorem check_after_delete_covers (s : BlobStore) (c' b' c b : String) (ip ig : Bool)
    (hcov : covers c b (Op.deleteFile c' b' ip ig) = true) :
    check_for_blob ((delete_file noFail s c' b' ip ig emptyKwargs).store) c b
      emptyKwargs = false := by
  rw [delete_file_store_noFail, check_for_blob_empty, List.any_filter]
  refine List.any_eq_false.mpr fun a ha => ?_
  intro hpq
  rw [Bool.and_eq_true] at hpq
  obtain ⟨hp, hq⟩ := hpq
  rw [Bool.and_eq_true, beq_iff_eq, beq_iff_eq] at hq
  obtain ⟨hac, han⟩ := hq
  simp only [covers, Bool.and_eq_true, beq_iff_eq] at hcov
  obtain ⟨hcc, hrest⟩ := hcov
  have hmem : a.name ∈ blobs_to_delete s c' b' ip emptyKwargs := by
    cases ip with
    | true =>
      rw [blobs_to_delete_prefix_mode]
      refine List.mem_map.mpr ⟨a, List.mem_filter.mpr ⟨ha, ?_⟩, rfl⟩
      rw [Bool.and_eq_true, beq_iff_eq]
      refine ⟨hac.trans hcc.symm, ?_⟩
      rw [han]
      simpa using hrest
    | false =>
      have hbb : b' = b := by simpa using hrest
      rw [blobs_to_delete_single_mode]
      have hcb : check_for_blob s c' b' emptyKwargs = true := by
        rw [check_for_blob_empty]
        refine List.any_eq_true.mpr ⟨a, ha, ?_⟩
        rw [Bool.and_eq_true, beq_iff_eq, beq_iff_eq]
        exact ⟨hac.trans hcc.symm, han.trans hbb.symm⟩
      rw [if_pos hcb]
      simp [han, hbb]
  have hpos : (a.container == c' && decide (a.name ∈ blobs_to_delete s c' b' ip
      emptyKwargs)) = true := by
    rw [Bool.and_eq_true, beq_iff_eq]
    exact ⟨hac.trans hcc.symm, by simpa using hmem⟩
  rw [hpos] at hp
  simp at hp

/-- A `delete_file` whose target does not cover the reference leaves
`check_for_blob` on the reference unchanged. -/
theorem check_after_delete_not_covers (s : BlobStore) (c' b' c b : String) (ip ig : Bool)
    (hcov : covers c b (Op.deleteFile c' b' ip ig) = false) :
    check_for_blob ((delete_file noFail s c' b' ip ig emptyKwargs).store) c b emptyKwargs
      = check_for_blob s c b emptyKwargs := by
  rw [delete_file_store_noFail, check_for_blob_empty, check_for_blob_empty,
    List.any_filter]
  congr 1
  funext a
  by_cases hc : a.container = c
  · by_cases hn : a.name = b
    · have hpf : (a.container == c' && decide (a.name ∈ blobs_to_delete s c' b' ip
          emptyKwargs)) = false := by
        by_cases hcc : a.container = c'
        · have hcc' : c' = c := hcc.symm.trans hc
          simp only [covers, hcc', Bool.and_eq_true, beq_iff_eq] at hcov
          simp only [beq_self_eq_true, Bool.true_and] at hcov
          have hnot : a.name ∉ blobs_to_delete s c' b' ip emptyKwargs := by
            cases ip with
            | true =>
              rw [blobs_to_delete_prefix_mode]
              intro hmem
              rcases List.mem_map.mp hmem with ⟨y, hy, hyname⟩
              rcases List.mem_filter.mp hy with ⟨-, hym⟩
              rw [Bool.and_eq_true] at hym
              have hsw : strStartsWith b' y.name = true := hym.2
              rw [hyname, hn] at hsw
              rw [hsw] at hcov
              exact absurd hcov (by simp)
            | false =>
              rw [blobs_to_delete_single_mode]
              intro hmem
              by_cases hcb : check_for_blob s c' b' emptyKwargs = true
              · rw [if_pos hcb] at hmem
                have hab : a.name = b' := by simpa using hmem
                have hbb : b' = b := hab.symm.trans hn
                rw [hbb] at hcov
                simp at hcov
              · have hcbf : check_for_blob s c' b' emptyKwargs = false := by
                  revert hcb; cases check_for_blob s c' b' emptyKwargs <;> simp
                rw [hcbf] at hmem
                simp at hmem
          simp [hnot]
        · simp [hcc]
      rw [hpf]
      simp
    · have hf : (a.name == b) = false := by simp [hn]
      simp [hf]
  · have hf : (a.container == c) = false := by simp [hc]
    simp [hf]

/-- One history step: an upload to the reference makes it present, a covering
deletion makes it absent, any other operation preserves its presence. -/
theorem check_applyOp (fs : String → String) (s : BlobStore) (c b : String) (op : Op) :
    check_for_blob (applyOp fs s op) c b emptyKwargs
      = (if isUploadTo c b op then true
         else if covers c b op then false
         else check_for_blob s c b emptyKwargs) := by
  cases op with
  | loadString d c' b' =>
    show check_for_blob (load_string s d c' b' emptyKwargs) c b emptyKwargs = _
    by_cases hup : (c' == c && b' == b) = true
    · simp only [isUploadTo, hup, if_true]
      rw [Bool.and_eq_true, beq_iff_eq, beq_iff_eq] at hup
      rw [hup.1, hup.2]
      exact check_after_load_string_same s d c b emptyKwargs
    · simp only [isUploadTo, hup, if_false, covers]
      refine check_after_load_string_other s d c' b' c b emptyKwargs fun hand => ?_
      exact hup (by rw [Bool.and_eq_true, beq_iff_eq, beq_iff_eq]; exact hand)
  | loadFile p c' b' =>
    show check_for_blob (load_string s (fs p) c' b' emptyKwargs) c b emptyKwargs = _
    by_cases hup : (c' == c && b' == b) = true
    · simp only [isUploadTo, hup, if_true]
      rw [Bool.and_eq_true, beq_iff_eq, beq_iff_eq] at hup
      rw [hup.1, hup.2]
      exact check_after_load_string_same s (fs p) c b emptyKwargs
    · simp only [isUploadTo, hup, if_false, covers]
      refine check_after_load_string_other s (fs p) c' b' c b emptyKwargs fun hand => ?_
      exact hup (by rw [Bool.and_eq_true, beq_iff_eq, beq_iff_eq]; exact hand)
  | deleteFile c' b' ip ig =>
    show check_for_blob ((delete_file noFail s c' b' ip ig emptyKwargs).store) c b
        emptyKwargs = _
    have hupf : isUploadTo c b (Op.deleteFile c' b' ip ig) = false := rfl
    rw [hupf, if_neg (by simp)]
    cases hcov : covers c b (Op.deleteFile c' b' ip ig) with
    | true =>
      rw [if_pos rfl]
      exact check_after_delete_covers s c' b' c b ip ig hcov
    | false =>
      rw [if_neg (by simp)]
      exact check_after_delete_not_covers s c' b' c b ip ig hcov

/-- Running a history folds the per-step transition over the starting
presence of the reference. -/
theorem runOps_check (fs : String → String) (c b : String) :
    ∀ (h : List Op) (s : BlobStore),
      check_for_blob (h.foldl (applyOp fs) s) c b emptyKwargs
        = h.foldl
            (fun acc op =>
              if isUploadTo c b op then true
              else if covers c b op then false
              else acc)
            (check_for_blob s c b emptyKwargs) := by
  intro h
  induction h with
  | nil => intro s; rfl
  | cons op rest ih =>
    intro s
    show check_for_blob (rest.foldl (applyOp fs) (applyOp fs s op)) c b emptyKwargs = _
    rw [ih (applyOp fs s op), check_applyOp, List.foldl_cons]

/-- Presence of a reference after a history from the empty store is the
`aliveAfter` scan of the history. -/
theorem runOps_alive (fs : String → String) (c b : String) (h : List Op) :
    check_for_blob (runOps fs h) c b emptyKwargs = aliveAfter c b h :=
  runOps_check fs c b h []

/-- Appending one operation to a history splits the existence of an upload
with a covering-free suffix into the cases for the appended operation. -/
theorem split_append (c b : String) (l : List Op) (op : Op) :
    (∃ h₁ u h₂, l ++ [op] = h₁ ++ u :: h₂ ∧ isUploadTo c b u = true
        ∧ ∀ op2 ∈ h₂, covers c b op2 = false)
      ↔ (isUploadTo c b op = true
         ∨ (covers c b op = false
            ∧ ∃ h₁ u h₂, l = h₁ ++ u :: h₂ ∧ isUploadTo c b u = true
              ∧ ∀ op2 ∈ h₂, covers c b op2 = false)) := by
  constructor
  · rintro ⟨h₁, u, h₂, heq, hup, hnc⟩
    rcases List.eq_nil_or_concat h₂ with h2nil | ⟨h₂', z, h2eq⟩
    · subst h2nil
      obtain ⟨-, hu⟩ := List.append_inj' heq rfl
      have hou : op = u := by injection hu
      exact Or.inl (hou ▸ hup)
    · subst h2eq
      rw [List.concat_eq_append] at heq hnc
      have heq' : l ++ [op] = (h₁ ++ u :: h₂') ++ [z] := by
        rw [heq]; simp
      obtain ⟨hl, hu⟩ := List.append_inj' heq' rfl
      have hoz : op = z := by injection hu
      refine Or.inr ⟨hoz ▸ hnc z (by simp), h₁, u, h₂', hl, hup, fun op2 hmem => ?_⟩
      exact hnc op2 (List.mem_append.mpr (Or.inl hmem))
  · rintro (hup | ⟨hcov, h₁, u, h₂, hl, hup, hnc⟩)
    · exact ⟨l, op, [], by simp, hup, by simp⟩
    · refine ⟨h₁, u, h₂ ++ [op], ?_, hup, ?_⟩
      · rw [hl]; simp
      · intro op2 hmem
        rcases List.mem_append.mp hmem with hm | hm
        · exact hnc op2 hm
        · rw [List.mem_singleton.mp hm]; exact hcov

/-- The `aliveAfter` scan is true exactly when the history splits around an
upload to the reference whose suffix contains no covering deletion. -/
theorem alive_iff_exists_split (c b : String) :
    ∀ (h : List Op), aliveAfter c b h = true ↔
      ∃ h₁ op h₂, h = h₁ ++ op :: h₂ ∧ isUploadTo c b op = true
        ∧ ∀ op2 ∈ h₂, covers c b op2 = false := by
  intro h
  induction h using List.reverseRecOn with
  | nil =>
    constructor
    · intro hfalse; exact absurd hfalse (by simp [aliveAfter])
    · rintro ⟨h₁, op, h₂, heq, -, -⟩
      exact absurd heq.symm (by simp)
  | append_singleton l op ih =>
    have hfold : aliveAfter c b (l ++ [op])
        = (if isUploadTo c b op then true else if covers c b op then false
           else aliveAfter c b l) := by
      unfold aliveAfter
      rw [List.foldl_append]
      rfl
    rw [hfold, split_append c b l op]
    by_cases hup : isUploadTo c b op = true
    · simp [hup]
    · have hupf : isUploadTo c b op = false := by
        revert hup; cases isUploadTo c b op <;> simp
      cases hcov : covers c b op with
      | true => simp [hupf, hcov]
      | false => simp [hupf, hcov, ih]

/-- C5: after running any history of uploads and deletions from the empty
store, `check_for_blob` on a reference is true exactly when the history
contains an upload to that exact reference that no later operation of the
history deletes (directly or through a matching prefix deletion). -/
theorem check_for_blob_iff_upload_not_deleted (fs : String → String) (h : List Op)
    (container_name blob_name : String) :
    check_for_blob (runOps fs h) container_name blob_name emptyKwargs = true ↔
      ∃ h₁ op h₂, h = h₁ ++ op :: h₂
        ∧ isUploadTo container_name blob_name op = true
        ∧ ∀ op2 ∈ h₂, covers container_name blob_name op2 = false := by
  rw [runOps_alive]
  exact alive_iff_exists_split container_name blob_name h
